import Mathlib

/-!
Verification of the go-image-unpacker decoder (src/imageunpacker.go).

The Go program is shallowly embedded as follows.

Byte buffers are lists of naturals (a Go byte is a uint8; the values read
from a file always lie in [0, 256), and none of the arithmetic below
overflows that assumption, so no masking is required).

Go float64 values are modelled as exact rationals.  The two places where
genuinely floating-point functions occur are kept abstract:

- math.Float32frombits is a parameter frombits : ℕ → ℚ (no claim depends
  on the IEEE-754 bit decoding itself);
- math.Pow is a parameter pow : ℚ → ℚ → ℚ (no claim depends on the value
  of the power function, only on whether it is applied).

Fatal control flow is made explicit: an out-of-bounds list index (a Go
run-time fault) is modelled by Option/the indexOutOfRange error, and
log.Fatalln (process exit) by the fatalLog error, both distinct from the
error values the Go functions return.
-/

namespace ImageUnpacker

/-- MaxImageDimension from imageunpacker.go: the largest width or height
supported for decoded images. -/
def MaxImageDimension : ℕ := 8192

/-- Header size in bytes. -/
def headerSize : ℕ := 4

/-- Size of an encoded float32 in bytes. -/
def floatSize : ℕ := 4

/-- Size of one RGB triple of float32s in bytes. -/
def elementSize : ℕ := 12

/-- One RGBA pixel: red, green, blue, alpha channel values. -/
abbrev Pixel := ℕ × ℕ × ℕ × ℕ

/-- The decoded raster image: the bounds of the image.RGBA created by
makeImage together with its pixel grid, stored as rows. -/
structure RGBAImage where
  width : ℕ
  height : ℕ
  rows : List (List Pixel)
deriving Repr, DecidableEq

/-- Ways the Unpack pipeline can stop abnormally.  corruptFile and
dimensionTooLarge are the two error values Unpack returns;
indexOutOfRange models the Go run-time fault raised by an out-of-bounds
slice index, and fatalLog models the process exit in uint32From. -/
inductive UnpackError
  | indexOutOfRange
  | corruptFile
  | dimensionTooLarge
  | fatalLog
deriving Repr, DecidableEq

/-- Errors of the whole program (the main function): the too-small check
performed by the caller before Unpack, or a failure inside Unpack. -/
inductive ProgramError
  | tooSmallInput
  | unpackFailed (e : UnpackError)
deriving Repr, DecidableEq

/-- getDimensions from imageunpacker.go: little-endian decode of width
(bytes 0..1) and height (bytes 2..3).  The two constant-bound loops are
unrolled.  Indexing is via getElem?, so a buffer shorter than 4 bytes
yields none, modelling the index-out-of-range fault of the Go code. -/
def getDimensions (bytes : List ℕ) : Option (ℕ × ℕ) := do
  let b0 ← bytes.get? 0
  let b1 ← bytes.get? 1
  let b2 ← bytes.get? 2
  let b3 ← bytes.get? 3
  pure ((0 ||| (b0 <<< (8 * 0))) ||| (b1 <<< (8 * 1)),
        (0 ||| (b2 <<< (8 * 0))) ||| (b3 <<< (8 * 1)))

/-- uint32From from imageunpacker.go: little-endian combination of exactly
4 bytes.  The log.Fatalln branch on a length mismatch (process exit) is
modelled by none. -/
def uint32From (bytes : List ℕ) : Option ℕ :=
  if bytes.length ≠ 4 then none
  else some ((((0 ||| (bytes.getD 0 0 <<< (8 * 0))) ||| (bytes.getD 1 0 <<< (8 * 1)))
      ||| (bytes.getD 2 0 <<< (8 * 2))) ||| (bytes.getD 3 0 <<< (8 * 3)))

/-- The byte slices convertToFloat hands to uint32From: for each
i < len(bytes)/floatSize the slice bytes[floatSize*i : floatSize*(i+1)]. -/
def convertChunks (bytes : List ℕ) : List (List ℕ) :=
  (List.range (bytes.length / floatSize)).map
    (fun i => (bytes.drop (floatSize * i)).take floatSize)

/-- convertToFloat from imageunpacker.go: decode every 4-byte group to a
float via math.Float32frombits (kept abstract as frombits).  The result is
none exactly when some uint32From call takes the fatal-exit branch. -/
def convertToFloat (frombits : ℕ → ℚ) (bytes : List ℕ) : Option (List ℚ) :=
  (convertChunks bytes).mapM (fun c => (uint32From c).map frombits)

/-- gammaCorrect from imageunpacker.go: replace each sample f by
pow f (1/g), with math.Pow kept abstract as pow. -/
def gammaCorrect (pow : ℚ → ℚ → ℚ) (f : List ℚ) (g : ℚ) : List ℚ :=
  f.map (fun x => pow x (1 / g))

/-- The per-sample body of standardDynamicRange:
byte(math.Max(0, math.Min(255, f*255.99))).  The clamped value is
nonnegative, so Go's truncation toward zero is the floor. -/
def sdrSample (f : ℚ) : ℕ :=
  (⌊max 0 (min 255 (f * (25599 / 100 : ℚ)))⌋).toNat

/-- standardDynamicRange from imageunpacker.go: quantize every sample. -/
def standardDynamicRange (f : List ℚ) : List ℕ :=
  f.map sdrSample

/-- The quantizer as the spec words it: clamp(round_down(f * 255.99), 0, 255)
(floor first, then clamp).  Stated for comparison with sdrSample. -/
def sdrSampleSpec (f : ℚ) : ℕ :=
  (max 0 (min 255 ⌊f * (25599 / 100 : ℚ)⌋)).toNat

/-- One im.Set(x, y, color.NRGBA{bytes[i], bytes[i+1], bytes[i+2], 255})
call: with alpha 255 the NRGBA-to-RGBA conversion keeps the channel values
unchanged.  Out-of-range reads default to 0 (the claims only ever read in
bounds). -/
def setPixel (bytes : List ℕ) (i : ℕ) : Pixel :=
  (bytes.getD i 0, bytes.getD (i + 1) 0, bytes.getD (i + 2) 0, 255)

/-- The inner x-loop of makeImage: one row of w pixels starting at byte
offset i, the offset advancing by 3 per pixel. -/
def makeImageRow (bytes : List ℕ) : ℕ → ℕ → List Pixel
  | 0, _ => []
  | w + 1, i => setPixel bytes i :: makeImageRow bytes w (i + 3)

/-- The outer y-loop of makeImage: h rows of w pixels, the running byte
offset continuing across rows (each row consumes 3*w bytes). -/
def makeImageRows (bytes : List ℕ) (w : ℕ) : ℕ → ℕ → List (List Pixel)
  | 0, _ => []
  | h + 1, i => makeImageRow bytes w i :: makeImageRows bytes w h (i + 3 * w)

/-- makeImage from imageunpacker.go: a w×h image filled row-major from the
pixel buffer, 3 bytes per pixel, starting at offset 0. -/
def makeImage (bytes : List ℕ) (w h : ℕ) : RGBAImage :=
  { width := w, height := h, rows := makeImageRows bytes w h 0 }

/-- Pixel lookup in the assembled image (row y, column x). -/
def pixelAt (im : RGBAImage) (x y : ℕ) : Pixel :=
  (im.rows.getD y []).getD x (0, 0, 0, 0)

/-- The continuation of Unpack once the header has been read: the size
check, the dimension check, float conversion, optional gamma correction,
quantization and image assembly, in the order of the Go code. -/
def unpackWithDims (frombits : ℕ → ℚ) (pow : ℚ → ℚ → ℚ) (bytes : List ℕ) (gamma : ℚ)
    (width height : ℕ) : Except UnpackError RGBAImage :=
  if bytes.length ≠ elementSize * width * height + headerSize then
    .error .corruptFile
  else if MaxImageDimension < width ∨ MaxImageDimension < height then
    .error .dimensionTooLarge
  else
    match convertToFloat frombits (bytes.drop headerSize) with
    | none => .error .fatalLog
    | some floats0 =>
      .ok (makeImage
        (standardDynamicRange (if gamma ≠ 1 then gammaCorrect pow floats0 gamma else floats0))
        width height)

/-- Unpack from imageunpacker.go. -/
def Unpack (frombits : ℕ → ℚ) (pow : ℚ → ℚ → ℚ) (bytes : List ℕ) (gamma : ℚ) :
    Except UnpackError RGBAImage :=
  match getDimensions bytes with
  | none => .error .indexOutOfRange
  | some (width, height) => unpackWithDims frombits pow bytes gamma width height

/-- The decode path of the main function: the length-under-4 check happens
in the caller, before the decoder (kept abstract as unpack) is invoked. -/
def mainUnpack (unpack : List ℕ → ℚ → Except UnpackError RGBAImage)
    (bytes : List ℕ) (gamma : ℚ) : Except ProgramError RGBAImage :=
  if bytes.length < headerSize then .error .tooSmallInput
  else
    match unpack bytes gamma with
    | .error e => .error (.unpackFailed e)
    | .ok im => .ok im

/-- Success projection of an Unpack result. -/
def okImage : Except UnpackError RGBAImage → Option RGBAImage
  | .ok im => some im
  | .error _ => none

/-- Boolean check that an image holds exactly w×h pixels: h rows, each of
length w. -/
def pixelCountOk (im : RGBAImage) (w h : ℕ) : Bool :=
  im.rows.length == h && im.rows.all (fun r => r.length == w)

/-- A concrete stand-in for math.Float32frombits, used to instantiate
theorems at concrete inputs. -/
def fb0 : ℕ → ℚ := fun _ => 0

/-- A concrete stand-in for math.Pow, used to instantiate theorems at
concrete inputs. -/
def pw0 : ℚ → ℚ → ℚ := fun x _ => x

/-! Helper lemmas shared by the claim theorems. -/

/-- Combining a low byte with a value shifted left by 8 is addition. -/
theorem lor_byte_shift (a b : ℕ) (ha : a < 256) : a ||| (b <<< 8) = a + 256 * b := by
  apply Nat.eq_of_testBit_eq
  intro j
  rw [Nat.testBit_lor, Nat.testBit_shiftLeft,
    show a + 256 * b = 2 ^ 8 * b + a by ring, Nat.testBit_mul_pow_two_add b ha j]
  by_cases hj : j < 8
  · simp [hj, Nat.not_le.mpr hj]
  · have h8 : a < 2 ^ j :=
      lt_of_lt_of_le ha (Nat.pow_le_pow_right (by norm_num : 0 < 2) (Nat.not_lt.mp hj))
    simp [hj, Nat.not_lt.mp hj, Nat.testBit_eq_false_of_lt h8]

/-- getDimensions recovers w and h from their canonical little-endian
header encoding, whatever follows the header. -/
theorem getDimensions_encode (w h : ℕ) (rest : List ℕ) :
    getDimensions ([w % 256, w / 256, h % 256, h / 256] ++ rest) = some (w, h) := by
  have hstep : getDimensions ([w % 256, w / 256, h % 256, h / 256] ++ rest)
      = some ((0 ||| ((w % 256) <<< (8 * 0))) ||| ((w / 256) <<< (8 * 1)),
              (0 ||| ((h % 256) <<< (8 * 0))) ||| ((h / 256) <<< (8 * 1))) := rfl
  have hsimp : ∀ n : ℕ, (0 ||| ((n % 256) <<< (8 * 0))) ||| ((n / 256) <<< (8 * 1)) = n := by
    intro n
    rw [Nat.mul_zero, Nat.shiftLeft_zero, Nat.zero_or, Nat.mul_one,
      lor_byte_shift _ _ (Nat.mod_lt n (by norm_num)), Nat.mod_add_div n 256]
  rw [hstep, hsimp w, hsimp h]

/-- A buffer shorter than the 4-byte header makes getDimensions index out
of bounds. -/
theorem getDimensions_eq_none {bytes : List ℕ} (h : bytes.length < 4) :
    getDimensions bytes = none := by
  rcases bytes with _ | ⟨a, _ | ⟨b, _ | ⟨c, _ | ⟨d, t⟩⟩⟩⟩
  · rfl
  · rfl
  · rfl
  · rfl
  · simp only [List.length_cons] at h
    omega

/-- Unpack dispatches to unpackWithDims once getDimensions succeeds. -/
theorem Unpack_eq_withDims (fb : ℕ → ℚ) (pw : ℚ → ℚ → ℚ) (bytes : List ℕ) (gamma : ℚ)
    {w h : ℕ} (hdim : getDimensions bytes = some (w, h)) :
    Unpack fb pw bytes gamma = unpackWithDims fb pw bytes gamma w h := by
  unfold Unpack
  rw [hdim]

/-- Every chunk convertToFloat builds has length exactly floatSize = 4. -/
theorem convertChunks_length {bytes : List ℕ} {c : List ℕ}
    (hc : c ∈ convertChunks bytes) : c.length = 4 := by
  rcases List.mem_map.mp hc with ⟨i, hi, rfl⟩
  have hi' : i < bytes.length / 4 := List.mem_range.mp hi
  have hdiv : bytes.length / 4 * 4 ≤ bytes.length := Nat.div_mul_le_self _ _
  simp only [List.length_take, List.length_drop, floatSize]
  omega

/-- uint32From succeeds on every 4-byte slice. -/
theorem uint32From_isSome {c : List ℕ} (hc : c.length = 4) : (uint32From c).isSome := by
  unfold uint32From
  rw [if_neg (by omega)]
  rfl

/-- mapM over Option succeeds when every element does. -/
theorem mapM_isSome {α β : Type} (f : α → Option β) :
    ∀ l : List α, (∀ a ∈ l, (f a).isSome) → (l.mapM f).isSome
  | [], _ => rfl
  | a :: l, h => by
    rcases Option.isSome_iff_exists.mp (h a (List.mem_cons_self a l)) with ⟨b, hb⟩
    rcases Option.isSome_iff_exists.mp
      (mapM_isSome f l (fun x hx => h x (List.mem_cons_of_mem a hx))) with ⟨bs, hbs⟩
    rw [List.mapM_cons, hb, hbs]
    rfl

/-- convertToFloat never takes the fatal branch. -/
theorem convertToFloat_isSome (fb : ℕ → ℚ) (bytes : List ℕ) :
    (convertToFloat fb bytes).isSome := by
  refine mapM_isSome _ _ (fun c hc => ?_)
  rcases Option.isSome_iff_exists.mp (uint32From_isSome (convertChunks_length hc)) with ⟨v, hv⟩
  simp [hv]

/-- A makeImage row holds w pixels. -/
theorem makeImageRow_length (bytes : List ℕ) :
    ∀ w i, (makeImageRow bytes w i).length = w
  | 0, _ => rfl
  | w + 1, i => by
    simp [makeImageRow, makeImageRow_length bytes w]

/-- makeImage produces h rows. -/
theorem makeImageRows_length (bytes : List ℕ) (w : ℕ) :
    ∀ h i, (makeImageRows bytes w h i).length = h
  | 0, _ => rfl
  | h + 1, i => by
    simp [makeImageRows, makeImageRows_length bytes w h]

/-- Every row produced by makeImage has length w. -/
theorem makeImageRows_row_length (bytes : List ℕ) (w : ℕ) :
    ∀ h i r, r ∈ makeImageRows bytes w h i → r.length = w
  | 0, _, _, hr => by simp [makeImageRows] at hr
  | h + 1, i, r, hr => by
    rcases List.mem_cons.mp hr with rfl | hr'
    · exact makeImageRow_length bytes w i
    · exact makeImageRows_row_length bytes w h (i + 3 * w) r hr'

/-- Pixel x of a row starting at offset i sits at offset i + 3*x. -/
theorem makeImageRow_getD (bytes : List ℕ) :
    ∀ w i x, x < w →
      (makeImageRow bytes w i).getD x (0, 0, 0, 0) = setPixel bytes (i + 3 * x)
  | 0, _, x, hx => absurd hx (Nat.not_lt_zero x)
  | w + 1, i, 0, _ => by simp [makeImageRow]
  | w + 1, i, x + 1, hx => by
    have := makeImageRow_getD bytes w (i + 3) x (Nat.lt_of_succ_lt_succ hx)
    simp only [makeImageRow, List.getD_cons_succ, this]
    ring_nf

/-- Row y of the rows starting at offset i begins at offset i + 3*w*y. -/
theorem makeImageRows_getD (bytes : List ℕ) (w : ℕ) :
    ∀ h i y, y < h →
      (makeImageRows bytes w h i).getD y [] = makeImageRow bytes w (i + 3 * w * y)
  | 0, _, y, hy => absurd hy (Nat.not_lt_zero y)
  | h + 1, i, 0, _ => by simp [makeImageRows]
  | h + 1, i, y + 1, hy => by
    have := makeImageRows_getD bytes w h (i + 3 * w) y (Nat.lt_of_succ_lt_succ hy)
    simp only [makeImageRows, List.getD_cons_succ, this]
    ring_nf

/-- Every pixel of a makeImage row has alpha 255. -/
theorem makeImageRow_alpha (bytes : List ℕ) :
    ∀ w i, (makeImageRow bytes w i).all (fun p => p.2.2.2 == 255)
  | 0, _ => rfl
  | w + 1, i => by
    simp [makeImageRow, setPixel, makeImageRow_alpha bytes w]

/-- Every pixel of every makeImage row has alpha 255. -/
theorem makeImageRows_alpha (bytes : List ℕ) (w : ℕ) :
    ∀ h i, (makeImageRows bytes w h i).all (fun r => r.all (fun p => p.2.2.2 == 255))
  | 0, _ => rfl
  | h + 1, i => by
    simp [makeImageRows, makeImageRow_alpha bytes w, makeImageRows_alpha bytes w h]

/-- The floor of the clamped value is the clamp of the floored value. -/
theorem floor_clamp_comm (q : ℚ) : ⌊max 0 (min 255 q)⌋ = max 0 (min 255 ⌊q⌋) := by
  rcases le_total q 0 with h | h
  · rw [min_eq_right (h.trans (by norm_num)), max_eq_left h,
      min_eq_right ((Int.floor_nonpos h).trans (by norm_num)),
      max_eq_left (Int.floor_nonpos h)]
    exact Int.floor_zero
  · rcases le_total q 255 with h' | h'
    · have h5 : ⌊q⌋ ≤ 255 := by simpa using Int.floor_le_floor h'
      rw [min_eq_right h', max_eq_right h, min_eq_right h5,
        max_eq_right (Int.floor_nonneg.mpr h)]
    · have h5 : (255 : ℤ) ≤ ⌊q⌋ := by simpa using Int.floor_le_floor h'
      rw [min_eq_left h', max_eq_right (by norm_num : (0 : ℚ) ≤ 255),
        min_eq_left h5, max_eq_right (by norm_num : (0 : ℤ) ≤ 255)]
      norm_num

/-- pixelCountOk always holds of a makeImage result for its own w and h. -/
theorem pixelCountOk_makeImage (data : List ℕ) (w h : ℕ) :
    pixelCountOk (makeImage data w h) w h = true := by
  simp only [pixelCountOk, makeImage, Bool.and_eq_true, beq_iff_eq, List.all_eq_true]
  exact ⟨makeImageRows_length data w h 0,
    fun r hr => makeImageRows_row_length data w h 0 r hr⟩

/-- Mapping the dimension-and-count summary over a successful result. -/
theorem okImage_map_ok (im : RGBAImage) (w h : ℕ) :
    (okImage (Except.ok im)).map (fun x => (x.width, x.height, pixelCountOk x w h))
      = some (im.width, im.height, pixelCountOk im w h) := rfl

/-! The claims. -/

/-- C4: for every buffer of length at least 4 (equivalently, one whose
header decodes to some (w, h)) whose total length differs from
12*w*h + 4, Unpack fails with the CorruptFile error. -/
theorem c4_length_mismatch_corrupt (fb : ℕ → ℚ) (pw : ℚ → ℚ → ℚ)
    (bytes : List ℕ) (gamma : ℚ) (w h : ℕ)
    (hdim : getDimensions bytes = some (w, h))
    (hlen : bytes.length ≠ 12 * w * h + 4) :
    Unpack fb pw bytes gamma = .error .corruptFile := by
  rw [Unpack_eq_withDims fb pw bytes gamma hdim]
  simp only [unpackWithDims, elementSize, headerSize]
  rw [if_pos hlen]

/-- C4 witness: a 4-byte buffer declaring 1×1 (which needs 16 bytes) is
rejected as corrupt. -/
theorem c4_length_mismatch_corrupt_witness :
    Unpack fb0 pw0 [1, 0, 1, 0] 2 = .error .corruptFile := by
  have hdim : getDimensions [1, 0, 1, 0] = some (1, 1) := rfl
  exact c4_length_mismatch_corrupt fb0 pw0 [1, 0, 1, 0] 2 1 1 hdim (by decide)

/-- C1 counterexample: a buffer declaring width 8193 > 8192 whose length
does not match 12*w*h + 4 fails with CorruptFile, not DimensionTooLarge,
so the dimension error is NOT raised regardless of buffer size
correctness. -/
theorem c1_cex_size_check_runs_first :
    getDimensions [1, 32, 1, 0] = some (8193, 1)
    ∧ Unpack fb0 pw0 [1, 32, 1, 0] 2 = .error .corruptFile
    ∧ UnpackError.corruptFile ≠ UnpackError.dimensionTooLarge :=
  ⟨rfl, rfl, by decide⟩

/-- C1 (amended): for a buffer declaring width > 8192 or height > 8192,
Unpack fails with DimensionTooLarge when the buffer length equals
12*w*h + 4; when it does not, the size check runs first and Unpack fails
with CorruptFile instead. -/
theorem c1_dimension_check_after_size (fb : ℕ → ℚ) (pw : ℚ → ℚ → ℚ)
    (bytes : List ℕ) (gamma : ℚ) (w h : ℕ)
    (hdim : getDimensions bytes = some (w, h))
    (hbig : 8192 < w ∨ 8192 < h) :
    Unpack fb pw bytes gamma =
      if bytes.length = 12 * w * h + 4 then .error .dimensionTooLarge
      else .error .corruptFile := by
  rw [Unpack_eq_withDims fb pw bytes gamma hdim]
  simp only [unpackWithDims, elementSize, headerSize, MaxImageDimension]
  by_cases hlen : bytes.length = 12 * w * h + 4
  · rw [if_pos hlen, if_neg (not_not_intro hlen), if_pos hbig]
  · rw [if_neg hlen, if_pos hlen]

/-- C1 witness: a buffer declaring 8193×1 with the matching length
12*8193*1 + 4 does fail with DimensionTooLarge. -/
theorem c1_dimension_check_after_size_witness :
    Unpack fb0 pw0 ([1, 32, 1, 0] ++ List.replicate 98316 0) 2 =
      .error .dimensionTooLarge := by
  have hdim : getDimensions ([1, 32, 1, 0] ++ List.replicate 98316 0) = some (8193, 1) := rfl
  rw [c1_dimension_check_after_size fb0 pw0 ([1, 32, 1, 0] ++ List.replicate 98316 0) 2
    8193 1 hdim (Or.inl (by norm_num))]
  rw [if_pos (by rw [List.length_append, List.length_replicate]; norm_num)]

/-- C2 counterexample: the 4-byte buffer declaring width 0 and height 0 is
accepted by Unpack (it returns an image, not an error), so a successful
decode does not guarantee 1 ≤ width and 1 ≤ height. -/
theorem c2_cex_zero_width_accepted :
    Unpack fb0 pw0 [0, 0, 0, 0] 2 = .ok (makeImage [] 0 0)
    ∧ getDimensions [0, 0, 0, 0] = some (0, 0) :=
  ⟨rfl, rfl⟩

/-- C2 (amended): on every successful Unpack the decoded dimensions
satisfy width ≤ 8192 and height ≤ 8192 (and the image carries exactly
those dimensions); the lower bound 1 is not enforced — buffers declaring
width = 0 or height = 0 can be accepted. -/
theorem c2_success_dims_bounded (fb : ℕ → ℚ) (pw : ℚ → ℚ → ℚ)
    (bytes : List ℕ) (gamma : ℚ) (img : RGBAImage) (w h : ℕ)
    (hok : Unpack fb pw bytes gamma = .ok img)
    (hdim : getDimensions bytes = some (w, h)) :
    img.width = w ∧ img.height = h ∧ w ≤ 8192 ∧ h ≤ 8192 := by
  rw [Unpack_eq_withDims fb pw bytes gamma hdim] at hok
  simp only [unpackWithDims, elementSize, headerSize, MaxImageDimension] at hok
  by_cases hlen : bytes.length ≠ 12 * w * h + 4
  · rw [if_pos hlen] at hok
    exact Except.noConfusion hok
  · rw [if_neg hlen] at hok
    by_cases hbig : 8192 < w ∨ 8192 < h
    · rw [if_pos hbig] at hok
      exact Except.noConfusion hok
    · rw [if_neg hbig] at hok
      rcases hcf : convertToFloat fb (bytes.drop 4) with _ | floats0
      · rw [hcf] at hok
        exact Except.noConfusion hok
      · rw [hcf] at hok
        rw [← Except.ok.inj hok]
        exact ⟨rfl, rfl, by omega, by omega⟩

/-- C2 witness: instantiated at a concrete successful 1×1 decode. -/
theorem c2_success_dims_bounded_witness :
    (makeImage (standardDynamicRange (gammaCorrect pw0 [fb0 0, fb0 0, fb0 0] 2)) 1 1).width = 1
    ∧ (makeImage (standardDynamicRange (gammaCorrect pw0 [fb0 0, fb0 0, fb0 0] 2)) 1 1).height = 1
    ∧ 1 ≤ 8192 ∧ 1 ≤ 8192 := by
  have hok : Unpack fb0 pw0 ([1, 0, 1, 0] ++ List.replicate 12 0) 2
      = .ok (makeImage (standardDynamicRange (gammaCorrect pw0 [fb0 0, fb0 0, fb0 0] 2)) 1 1) :=
    rfl
  have hdim : getDimensions ([1, 0, 1, 0] ++ List.replicate 12 0) = some (1, 1) := rfl
  exact c2_success_dims_bounded fb0 pw0 ([1, 0, 1, 0] ++ List.replicate 12 0) 2
    (makeImage (standardDynamicRange (gammaCorrect pw0 [fb0 0, fb0 0, fb0 0] 2)) 1 1)
    1 1 hok hdim

/-- C3: for all 1 ≤ w ≤ 8192 and 1 ≤ h ≤ 8192 and any gamma, a buffer of
exact length 12*w*h + 4 whose first four bytes encode w and h
little-endian decodes without error to an image of exactly w×h pixels. -/
theorem c3_valid_buffer_decodes (fb : ℕ → ℚ) (pw : ℚ → ℚ → ℚ) (gamma : ℚ)
    (w h : ℕ) (payload : List ℕ)
    (hw1 : 1 ≤ w) (hw2 : w ≤ 8192) (hh1 : 1 ≤ h) (hh2 : h ≤ 8192)
    (hlen : payload.length = 12 * w * h) :
    (okImage (Unpack fb pw ([w % 256, w / 256, h % 256, h / 256] ++ payload) gamma)).map
        (fun im => (im.width, im.height, pixelCountOk im w h))
      = some (w, h, true) := by
  rw [Unpack_eq_withDims fb pw _ gamma (getDimensions_encode w h payload)]
  simp only [unpackWithDims, elementSize, headerSize, MaxImageDimension]
  have hlen4 : ([w % 256, w / 256, h % 256, h / 256] ++ payload).length = 12 * w * h + 4 := by
    rw [List.length_append, hlen]
    simp only [List.length_cons, List.length_nil]
    omega
  rw [if_neg (not_not_intro hlen4), if_neg (by omega : ¬(8192 < w ∨ 8192 < h))]
  rcases Option.isSome_iff_exists.mp (convertToFloat_isSome fb
    (([w % 256, w / 256, h % 256, h / 256] ++ payload).drop 4)) with ⟨floats0, hf⟩
  rw [hf, okImage_map_ok, pixelCountOk_makeImage]
  rfl

/-- C3 witness: a concrete 1×1 buffer of 16 bytes decodes to a 1×1 image. -/
theorem c3_valid_buffer_decodes_witness :
    (okImage (Unpack fb0 pw0
        ([1 % 256, 1 / 256, 1 % 256, 1 / 256] ++ List.replicate 12 0) 2)).map
        (fun im => (im.width, im.height, pixelCountOk im 1 1))
      = some (1, 1, true) :=
  c3_valid_buffer_decodes fb0 pw0 2 1 1 (List.replicate 12 0)
    (by decide) (by decide) (by decide) (by decide) (by decide)

/-- C5: the quantizer agrees with the spec formula
clamp(round_down(f * 255.99), 0, 255) on every sample, and takes the
stated values at 1.0, 0.0, -0.5 and 2.0. -/
theorem c5_quantizer_formula (f : ℚ) :
    sdrSample f = sdrSampleSpec f
    ∧ standardDynamicRange [f] = [sdrSample f]
    ∧ sdrSample 1 = 255 ∧ sdrSample 0 = 0
    ∧ sdrSample (-(1 / 2)) = 0 ∧ sdrSample 2 = 255 := by
  refine ⟨?_, rfl, ?_, ?_, ?_, ?_⟩
  · unfold sdrSample sdrSampleSpec
    rw [floor_clamp_comm]
  · norm_num [sdrSample]
    rfl
  · norm_num [sdrSample]
  · norm_num [sdrSample]
  · norm_num [sdrSample]
    rfl

/-- C6: when gamma = 1.0 the gamma-correction stage is skipped: the output
image is assembled from the quantization of the raw, uncorrected sample
array, whatever the power function is. -/
theorem c6_gamma_one_skips (fb : ℕ → ℚ) (pw : ℚ → ℚ → ℚ) (bytes : List ℕ)
    (w h : ℕ) (floats : List ℚ)
    (hdim : getDimensions bytes = some (w, h))
    (hlen : bytes.length = 12 * w * h + 4)
    (hw : w ≤ 8192) (hh : h ≤ 8192)
    (hf : convertToFloat fb (bytes.drop 4) = some floats) :
    Unpack fb pw bytes 1 = .ok (makeImage (standardDynamicRange floats) w h) := by
  rw [Unpack_eq_withDims fb pw bytes 1 hdim]
  simp only [unpackWithDims, elementSize, headerSize, MaxImageDimension]
  rw [if_neg (not_not_intro hlen), if_neg (by omega : ¬(8192 < w ∨ 8192 < h)), hf]
  simp

/-- C6 witness: a concrete 1×1 buffer decoded with gamma = 1. -/
theorem c6_gamma_one_skips_witness :
    Unpack fb0 pw0 ([1, 0, 1, 0] ++ List.replicate 12 0) 1 =
      .ok (makeImage (standardDynamicRange [fb0 0, fb0 0, fb0 0]) 1 1) := by
  have hdim : getDimensions ([1, 0, 1, 0] ++ List.replicate 12 0) = some (1, 1) := rfl
  have hf : convertToFloat fb0 (([1, 0, 1, 0] ++ List.replicate 12 0).drop 4)
      = some [fb0 0, fb0 0, fb0 0] := rfl
  exact c6_gamma_one_skips fb0 pw0 ([1, 0, 1, 0] ++ List.replicate 12 0) 1 1
    [fb0 0, fb0 0, fb0 0] hdim (by decide) (by decide) (by decide) hf

/-- C7: the image assembler walks the pixel buffer row-major, 3 bytes per
pixel: pixel (x, y) holds bytes 3*(y*w+x), 3*(y*w+x)+1, 3*(y*w+x)+2, and
every pixel of the image has alpha 255. -/
theorem c7_row_major_pixels (bytes : List ℕ) (w h : ℕ)
    (hlen : bytes.length = 3 * w * h) (x y : ℕ) (hx : x < w) (hy : y < h) :
    pixelAt (makeImage bytes w h) x y
        = (bytes.getD (3 * (y * w + x)) 0, bytes.getD (3 * (y * w + x) + 1) 0,
           bytes.getD (3 * (y * w + x) + 2) 0, 255)
    ∧ (makeImage bytes w h).rows.all (fun r => r.all (fun p => p.2.2.2 == 255)) = true := by
  constructor
  · simp only [pixelAt, makeImage]
    rw [makeImageRows_getD bytes w h 0 y hy, makeImageRow_getD bytes w _ x hx,
      show 0 + 3 * w * y + 3 * x = 3 * (y * w + x) by ring]
    rfl
  · exact makeImageRows_alpha bytes w h 0

/-- C7 witness: in a 2×1 image the second pixel takes bytes 3..5, with
alpha 255 everywhere. -/
theorem c7_row_major_pixels_witness :
    pixelAt (makeImage [10, 20, 30, 40, 50, 60] 2 1) 1 0 = (40, 50, 60, 255)
    ∧ (makeImage [10, 20, 30, 40, 50, 60] 2 1).rows.all
        (fun r => r.all (fun p => p.2.2.2 == 255)) = true :=
  have h := c7_row_major_pixels [10, 20, 30, 40, 50, 60] 2 1 (by decide) 1 0
    (by decide) (by decide)
  ⟨h.1.trans (by decide), h.2⟩

/-- C8: the caller rejects every buffer shorter than 4 bytes with
TooSmallInput before the decoder runs: the result is the same whatever
decoding function would have been invoked. -/
theorem c8_caller_length_check (unpack : List ℕ → ℚ → Except UnpackError RGBAImage)
    (bytes : List ℕ) (gamma : ℚ) (h : bytes.length < 4) :
    mainUnpack unpack bytes gamma = .error .tooSmallInput := by
  unfold mainUnpack
  rw [if_pos (show bytes.length < headerSize from h)]

/-- C8 witness: a 3-byte file is rejected with TooSmallInput. -/
theorem c8_caller_length_check_witness :
    mainUnpack (Unpack fb0 pw0) [1, 2, 3] 2 = .error .tooSmallInput :=
  c8_caller_length_check (Unpack fb0 pw0) [1, 2, 3] 2 (by decide)

/-- C9: every slice convertToFloat passes to uint32From has length exactly
4, so the length-mismatch assertion in uint32From never fires and
convertToFloat always succeeds. -/
theorem c9_uint32From_always_4 (bytes : List ℕ) (fb : ℕ → ℚ) (c : List ℕ)
    (hc : c ∈ convertChunks bytes) :
    c.length = 4 ∧ (uint32From c).isSome = true
      ∧ (convertToFloat fb bytes).isSome = true :=
  ⟨convertChunks_length hc, uint32From_isSome (convertChunks_length hc),
    convertToFloat_isSome fb bytes⟩

/-- C9 witness: the first chunk of an 8-byte payload. -/
theorem c9_uint32From_always_4_witness :
    ([0, 0, 0, 0] : List ℕ).length = 4 ∧ (uint32From [0, 0, 0, 0]).isSome = true
      ∧ (convertToFloat fb0 [0, 0, 0, 0, 9, 9, 9, 9]).isSome = true :=
  c9_uint32From_always_4 [0, 0, 0, 0, 9, 9, 9, 9] fb0 [0, 0, 0, 0] (by decide)

/-- C10: calling Unpack directly on a buffer shorter than 4 bytes makes
getDimensions index out of bounds (a run-time fault, not a returned
error): the header-size precondition is enforced only by the caller. -/
theorem c10_unpack_oob_short_buffer (fb : ℕ → ℚ) (pw : ℚ → ℚ → ℚ)
    (bytes : List ℕ) (gamma : ℚ) (h : bytes.length < 4) :
    Unpack fb pw bytes gamma = .error .indexOutOfRange := by
  unfold Unpack
  rw [getDimensions_eq_none h]

/-- C10 witness: a 3-byte buffer faults inside Unpack. -/
theorem c10_unpack_oob_short_buffer_witness :
    Unpack fb0 pw0 [7, 7, 7] 2 = .error .indexOutOfRange :=
  c10_unpack_oob_short_buffer fb0 pw0 [7, 7, 7] 2 (by decide)

end ImageUnpacker
